import Mathlib

/-!
Verification development for the UniConvert AI front-end
(batch conversion queue and result-reconciliation logic).

The embedding mirrors three source files:
  * `types.ts`               — data model (`ConversionState`, `BatchFileItem`,
                               `SUPPORTED_FILE_TYPES`, `TargetFormat`);
  * the main app component   — queue operations `processFiles`, `removeFile`,
                               selection and setter handlers, and the batch
                               driver `handleConvert`;
  * `services/geminiService.ts` — `getMimeType`, `isTextFile`, prompt-part
                               construction and `convertContent`.

External effects are made explicit: the remote conversion call is an oracle
parameter (`FileMeta → … → Except String String`), random ids become a fresh
counter, `FileReader` results become fields of `FileMeta` (`textContent` for
`readAsText`, `b64Data` for the base64 payload of `readAsDataURL`), and the
React `setState` sequence of a batch run is reflected as an explicit trace of
intermediate states.  JS `null`/`undefined` becomes `Option`.
-/

namespace UniConvert

/-- `TargetFormat` enum from `types.ts`. -/
inductive TargetFormat where
  | JSON | XML | CSV | MARKDOWN | HTML | LATEX | SQL | YAML
  | DOCX | PLAIN_TEXT | MERMAID
  deriving DecidableEq

/-- The string value of each `TargetFormat` enum member (`types.ts`). -/
def TargetFormat.str : TargetFormat → String
  | .JSON => "JSON"
  | .XML => "XML"
  | .CSV => "CSV"
  | .MARKDOWN => "Markdown"
  | .HTML => "HTML"
  | .LATEX => "LaTeX"
  | .SQL => "SQL"
  | .YAML => "YAML"
  | .DOCX => "DOCX (Word文档)"
  | .PLAIN_TEXT => "纯文本"
  | .MERMAID => "Mermaid 图表"

/-- `ConversionStatus` from `types.ts`: `'idle' | 'processing' | 'success' | 'error'`.
(The spec calls these pending / in-progress / succeeded / failed.) -/
inductive ConversionStatus where
  | idle | processing | success | error
  deriving DecidableEq

/-- `inputMode` field values (`'text' | 'file'`). -/
inductive InputMode where
  | text | file
  deriving DecidableEq

/-- A browser `File` as the program observes it: `name`, declared content
`type` (`""` when the browser supplies none), byte `size`, plus the two
possible `FileReader` readings used by the service layer (`readAsText`
result and the base64 payload of the `readAsDataURL` result). -/
structure FileMeta where
  name : String
  type : String
  size : Nat
  textContent : String
  b64Data : String
  deriving DecidableEq

/-- `BatchFileItem` from `types.ts`.  Ids are modelled as `Nat` (the source
uses random string tokens). -/
structure BatchFileItem where
  id : Nat
  file : FileMeta
  status : ConversionStatus
  result : Option String
  error : Option String
  deriving DecidableEq

/-- `ConversionState` from `types.ts`. -/
structure ConversionState where
  inputMode : InputMode
  inputText : String
  batchFiles : List BatchFileItem
  activeFileId : Option Nat
  targetFormat : TargetFormat
  status : ConversionStatus
  textResult : String
  error : Option String
  additionalInstructions : String
  customFilename : String
  deriving DecidableEq

/-- `SUPPORTED_FILE_TYPES` from `types.ts`. -/
def SUPPORTED_FILE_TYPES : List String :=
  [ "image/png", "image/jpeg", "image/webp", "image/heic",
    "application/pdf", "text/plain", "text/csv", "text/html",
    "application/json", "text/markdown", "text/x-yaml",
    "application/vnd.openxmlformats-officedocument.wordprocessingml.document" ]

/-- The extra extensions the app appends when building `ACCEPT_STRING`. -/
def EXTRA_EXTENSIONS : List String :=
  [".pdf", ".docx", ".doc", ".csv", ".txt", ".md", ".json", ".xml", ".html", ".yaml", ".yml"]

/-- JS `s.startsWith(pre)`, expressed structurally over the character list
(core `String.startsWith` is not kernel-reducible). -/
def jsStartsWith (s pre : String) : Bool :=
  pre.toList.isPrefixOf s.toList

/-- JS `Array.prototype.join(',')`. -/
def joinComma : List String → String
  | [] => ""
  | [x] => x
  | x :: y :: rest => x ++ "," ++ joinComma (y :: rest)

/-- The characters after the last `'.'` (the whole list when there is no
`'.'`): JS `str.split('.').pop()`. -/
def afterLastDot (cs : List Char) : List Char :=
  cs.foldl (fun acc c => if c = '.' then [] else acc ++ [c]) []

/-- JS `name.split('.').pop()?.toLowerCase()` (ASCII lower-casing). -/
def lastExtLower (name : String) : String :=
  String.mk ((afterLastDot name.toList).map Char.toLower)

/-- JS `String.prototype.trim`: strip leading and trailing whitespace. -/
def jsTrim (s : String) : String :=
  String.mk (((s.toList.dropWhile Char.isWhitespace).reverse.dropWhile
    Char.isWhitespace).reverse)

/-- `ACCEPT_STRING`: supported mime types and extensions joined with commas. -/
def ACCEPT_STRING : String :=
  joinComma (SUPPORTED_FILE_TYPES ++ EXTRA_EXTENSIONS)

/-- JS `String.prototype.includes` on character lists: does the haystack
contain the needle as a contiguous substring? -/
def charsInclude (needle : List Char) : List Char → Bool
  | [] => needle.isEmpty
  | c :: rest => needle.isPrefixOf (c :: rest) || charsInclude needle rest

/-- JS `hay.includes(sub)`. -/
def stringIncludes (hay sub : String) : Bool :=
  charsInclude sub.toList hay.toList

/-- `MAX_SIZE` from `processFiles`: 5 MB. -/
def MAX_SIZE : Nat := 5 * 1024 * 1024

/-- `isValidMime` check in `processFiles`:
`SUPPORTED_FILE_TYPES.some(type => file.type === type || file.type.startsWith(type))`. -/
def isValidMime (f : FileMeta) : Bool :=
  SUPPORTED_FILE_TYPES.any fun t => f.type == t || jsStartsWith f.type t

/-- `isValidExt` check in `processFiles`: `ACCEPT_STRING.includes(fileExt)`
where `fileExt = '.' + file.name.split('.').pop()?.toLowerCase()`. -/
def isValidExt (f : FileMeta) : Bool :=
  stringIncludes ACCEPT_STRING ("." ++ lastExtLower f.name)

/-- The per-candidate admission check of `processFiles`: `some msg` when the
candidate is rejected (with the rejection message), `none` when admitted.
The interpolated size figure of the size message (a JS float `toFixed(1)`
rendering) is elided from the modelled string. -/
def checkFile (f : FileMeta) : Option String :=
  if f.size > MAX_SIZE then
    some ("文件 " ++ f.name ++ " 过大。请上传 5MB 以内的文件。")
  else if !(isValidMime f) && !(isValidExt f) && !(f.type == "") then
    some ("不支持的文件类型: " ++ f.name)
  else
    none

/-- A freshly enqueued item (`{ id: generateId(), file, status: 'idle' }`). -/
def mkItem (n : Nat) (f : FileMeta) : BatchFileItem :=
  ⟨n, f, ConversionStatus.idle, none, none⟩

/-- The `forEach` accumulation loop of `processFiles`: returns the accepted
items (ids assigned from the fresh counter `n` in acceptance order) and the
final `errorMsg` (the message of the last rejected candidate, if any). -/
def processFilesLoop : List FileMeta → Nat → List BatchFileItem × Option String
  | [], _ => ([], none)
  | f :: rest, n =>
    match checkFile f with
    | some msg =>
      let r := processFilesLoop rest n
      (r.1, r.2.orElse fun _ => some msg)
    | none =>
      let r := processFilesLoop rest (n + 1)
      (mkItem n f :: r.1, r.2)

/-- `processFiles` state update: append accepted items, make the first new
item active when nothing was active (`prev.activeFileId || …`), and keep the
previous error when no candidate was rejected (`errorMsg || prev.error`). -/
def processFiles (files : List FileMeta) (n : Nat) (s : ConversionState) : ConversionState :=
  let r := processFilesLoop files n
  { s with
    batchFiles := s.batchFiles ++ r.1
    activeFileId :=
      match s.activeFileId with
      | some a => some a
      | none =>
        match r.1.head? with
        | some f => some f.id
        | none => none
    error := r.2.orElse fun _ => s.error }

/-- `removeFile(id)`: drop the item; when the removed item was the active one,
the first remaining item becomes active (or nothing, when the queue empties). -/
def removeFile (id : Nat) (s : ConversionState) : ConversionState :=
  let newFiles := s.batchFiles.filter fun f => !(f.id == id)
  let newActive :=
    if s.activeFileId = some id then
      match newFiles.head? with
      | some f => some f.id
      | none => none
    else s.activeFileId
  { s with batchFiles := newFiles, activeFileId := newActive }

/-- Clicking an item in the file list: `setState(prev => ({...prev, activeFileId: file.id}))`.
The UI only ever invokes this for an item rendered from `batchFiles`. -/
def selectFile (id : Nat) (s : ConversionState) : ConversionState :=
  { s with activeFileId := some id }

/-- Target-format button handler: `{...prev, targetFormat: format}`. -/
def setTargetFormat (t : TargetFormat) (s : ConversionState) : ConversionState :=
  { s with targetFormat := t }

/-- Instructions input handler: `{...prev, additionalInstructions: e.target.value}`. -/
def setAdditionalInstructions (txt : String) (s : ConversionState) : ConversionState :=
  { s with additionalInstructions := txt }

/-- Input textarea handler: `{...prev, inputText: e.target.value, error: null}`. -/
def setInputText (txt : String) (s : ConversionState) : ConversionState :=
  { s with inputText := txt, error := none }

/-- One external `convertContent` invocation, as recorded for observation:
either the single-text call or a per-file call (by item id). -/
inductive ConvCall where
  | text (input : String)
  | file (id : Nat)
  deriving DecidableEq

/-- The common shape of the three per-item `setState` updates inside the batch
loop: `prev.batchFiles.map(f => f.id === id ? upd(f) : f)`. -/
def updateById (id : Nat) (u : BatchFileItem → BatchFileItem)
    (files : List BatchFileItem) : List BatchFileItem :=
  files.map fun f => if f.id = id then u f else f

/-- The `setState` update marking an item as in progress:
`f.id === id ? { ...f, status: 'processing', error: undefined } : f`. -/
def markProcessing (id : Nat) : List BatchFileItem → List BatchFileItem :=
  updateById id fun g => { g with status := ConversionStatus.processing, error := none }

/-- The `setState` update recording a successful conversion:
`f.id === id ? { ...f, status: 'success', result } : f`. -/
def markSuccess (id : Nat) (r : String) : List BatchFileItem → List BatchFileItem :=
  updateById id fun g => { g with status := ConversionStatus.success, result := some r }

/-- The `setState` update recording a failed conversion:
`f.id === id ? { ...f, status: 'error', error: err.message } : f`. -/
def markError (id : Nat) (e : String) : List BatchFileItem → List BatchFileItem :=
  updateById id fun g => { g with status := ConversionStatus.error, error := some e }

/-- The sequential batch loop of `handleConvert` (file mode).  `todo` is the
snapshot `filesToProcess = state.batchFiles`; `s` the evolving state; `calls`
the external calls made so far; `trace` the states visible after each
`setState`.  Items whose snapshot status is `success` are skipped; every
other item is marked `processing` (clearing its error and becoming the
active item), converted, and marked `success`/`error` with the outcome.
After the loop the overall status returns to `idle`. -/
def runBatchAux (conv : FileMeta → Except String String) :
    List BatchFileItem → ConversionState → List ConvCall → List ConversionState →
    ConversionState × List ConvCall × List ConversionState
  | [], s, calls, trace =>
    let sFinal := { s with status := ConversionStatus.idle }
    (sFinal, calls, trace ++ [sFinal])
  | f :: rest, s, calls, trace =>
    if f.status = ConversionStatus.success then
      runBatchAux conv rest s calls trace
    else
      let s1 := { s with
        activeFileId := some f.id,
        batchFiles := markProcessing f.id s.batchFiles }
      match conv f.file with
      | Except.ok r =>
        let s2 := { s1 with batchFiles := markSuccess f.id r s1.batchFiles }
        runBatchAux conv rest s2 (calls ++ [ConvCall.file f.id]) (trace ++ [s1, s2])
      | Except.error e =>
        let s2 := { s1 with batchFiles := markError f.id e s1.batchFiles }
        runBatchAux conv rest s2 (calls ++ [ConvCall.file f.id]) (trace ++ [s1, s2])

/-- `handleConvert`: validation, then either the single-text call or the
sequential batch loop.  The external conversion function is the oracle
parameter `oracle` (file payloads) / `toracle` (text payloads); both receive
the state's target format and additional instructions, as in the source.
Returns the final state, the list of external calls made, and the trace of
states after each `setState` of the run. -/
def handleConvert
    (oracle : FileMeta → TargetFormat → String → Except String String)
    (toracle : String → TargetFormat → String → Except String String)
    (s : ConversionState) : ConversionState × List ConvCall × List ConversionState :=
  if s.inputMode = InputMode.text ∧ jsTrim s.inputText = "" then
    ({ s with error := some "请输入需要转换的文本。" }, [], [])
  else if s.inputMode = InputMode.file ∧ s.batchFiles = [] then
    ({ s with error := some "请至少选择一个文件。" }, [], [])
  else
    let s0 := { s with status := ConversionStatus.processing, error := none }
    match s.inputMode with
    | InputMode.text =>
      match toracle s.inputText s.targetFormat s.additionalInstructions with
      | Except.ok r =>
        let sF := { s0 with status := ConversionStatus.success, textResult := r }
        (sF, [ConvCall.text s.inputText], [s0, sF])
      | Except.error e =>
        let sF := { s0 with
          status := ConversionStatus.error,
          error := some (if e = "" then "发生意外错误。" else e) }
        (sF, [ConvCall.text s.inputText], [s0, sF])
    | InputMode.file =>
      runBatchAux (fun f => oracle f s.targetFormat s.additionalInstructions)
        s0.batchFiles s0 [] [s0]

/-- The net effect of one batch pass on a single item (a specification
function, to be proved equal to the loop's behaviour): `success` items are
untouched; every other item is converted and lands in `success` (with the
result stored, error cleared) or `error` (with the message stored). -/
def processItem (conv : FileMeta → Except String String) (f : BatchFileItem) : BatchFileItem :=
  if f.status = ConversionStatus.success then f
  else
    match conv f.file with
    | Except.ok r =>
      { f with status := ConversionStatus.success, result := some r, error := none }
    | Except.error e =>
      { f with status := ConversionStatus.error, error := some e }

/-- Per-item invariant: `result` is set exactly in status `success`, `error`
is set exactly in status `error` (so in `idle`/`processing` neither is set,
and never both). -/
def itemOkB (f : BatchFileItem) : Bool :=
  (f.result.isSome == (f.status == ConversionStatus.success)) &&
  (f.error.isSome == (f.status == ConversionStatus.error))

/-- State invariant: the active id, when set, names an item of the queue. -/
def activeOkB (s : ConversionState) : Bool :=
  s.activeFileId.all fun a => s.batchFiles.any fun f => f.id == a

/-! `services/geminiService.ts` -/

/-- `getMimeType`: the declared type when it is neither empty nor the generic
`application/octet-stream`; otherwise a mime type inferred from the filename
extension, defaulting to `text/plain`. -/
def getMimeType (f : FileMeta) : String :=
  if f.type ≠ "" ∧ f.type ≠ "application/octet-stream" then f.type
  else
    match lastExtLower f.name with
    | "pdf" => "application/pdf"
    | "csv" => "text/csv"
    | "json" => "application/json"
    | "xml" => "text/xml"
    | "html" => "text/html"
    | "md" => "text/markdown"
    | "txt" => "text/plain"
    | "doc" => "application/vnd.openxmlformats-officedocument.wordprocessingml.document"
    | "docx" => "application/vnd.openxmlformats-officedocument.wordprocessingml.document"
    | "png" => "image/png"
    | "jpg" => "image/jpeg"
    | "jpeg" => "image/jpeg"
    | "webp" => "image/webp"
    | "heic" => "image/heic"
    | _ => "text/plain"

/-- The mime prefixes `isTextFile` treats as textual. -/
def textMimes : List String :=
  [ "text/", "application/json", "application/xml", "application/javascript",
    "application/x-yaml", "application/sql", "application/csv" ]

/-- The extensions `isTextFile` treats as textual. -/
def textExts : List String :=
  ["txt", "md", "csv", "json", "xml", "html", "css", "js", "yaml", "yml", "sql", "ts", "tsx", "py"]

/-- `isTextFile`: safe to read and send as literal text? -/
def isTextFile (f : FileMeta) : Bool :=
  if textMimes.any (fun t => jsStartsWith (getMimeType f) t) then true
  else
    let ext := lastExtLower f.name
    !(ext == "") && textExts.contains ext

/-- A request content part: literal text, or a base64 byte blob tagged with a
mime type (`inlineData`). -/
inductive Part where
  | text (s : String)
  | inlineData (data : String) (mimeType : String)
  deriving DecidableEq

/-- Is this part an `inlineData` (base64) part? -/
def Part.isInline : Part → Bool
  | Part.text _ => false
  | Part.inlineData _ _ => true

/-- The conversion input: raw text, or a file. -/
inductive ConvInput where
  | text (s : String)
  | file (f : FileMeta)
  deriving DecidableEq

/-- The fixed separator line the source prepends to additional instructions. -/
def instructionsHeader : String := "\n\nAdditional Instructions & Rules:\n"

/-- Parts construction of `convertContent` for a file payload: textual files
are read and inlined into a literal text prompt (`fileToGenerativePart` is
not used); binary files become an `inlineData` part (base64 payload of the
data-URL reading, mime type from `getMimeType`) followed by a text prompt.
Non-blank additional instructions are appended per the source's two branches. -/
def buildPartsFile (f : FileMeta) (target : TargetFormat) (instr : String) : List Part :=
  if isTextFile f then
    if jsTrim instr ≠ "" then
      [Part.text ("Convert the following file content to " ++ target.str ++
          ". Filename: " ++ f.name ++ "\n\nContent:\n" ++ f.textContent),
       Part.text (instructionsHeader ++ instr)]
    else
      [Part.text ("Convert the following file content to " ++ target.str ++
          ". Filename: " ++ f.name ++ "\n\nContent:\n" ++ f.textContent)]
  else
    if jsTrim instr ≠ "" then
      [Part.inlineData f.b64Data (getMimeType f),
       Part.text ("Analyze the content of this file and convert it to " ++ target.str ++
          "." ++ instructionsHeader ++ instr)]
    else
      [Part.inlineData f.b64Data (getMimeType f),
       Part.text ("Analyze the content of this file and convert it to " ++ target.str ++ ".")]

/-- Parts construction of `convertContent` for a raw-text payload. -/
def buildPartsText (input : String) (target : TargetFormat) (instr : String) : List Part :=
  if jsTrim instr ≠ "" then
    [Part.text ("Convert the following text content to " ++ target.str ++ ":\n\n" ++ input),
     Part.text (instructionsHeader ++ instr)]
  else
    [Part.text ("Convert the following text content to " ++ target.str ++ ":\n\n" ++ input)]

/-- The parts `convertContent` sends for a given input. -/
def partsFor (input : ConvInput) (target : TargetFormat) (instr : String) : List Part :=
  match input with
  | ConvInput.text s => buildPartsText s target instr
  | ConvInput.file f => buildPartsFile f target instr

/-- `isPdfInput` flag of `convertContent`: a binary file whose derived mime
type is `application/pdf`. -/
def isPdfInputOf (input : ConvInput) : Bool :=
  match input with
  | ConvInput.text _ => false
  | ConvInput.file f => !(isTextFile f) && (getMimeType f == "application/pdf")

/-- The system instruction string built by `convertContent` (base text, plus
the DOCX addition and, for PDF inputs, the PDF-fidelity addition). -/
def systemInstructionFor (target : TargetFormat) (isPdfInput : Bool) : String :=
  let base := "You are a strict document conversion engine. \n    Your task is to transform the input data into the requested format (e.g., " ++
    target.str ++ "). \n    Do NOT include conversational filler, explanations, or markdown code fences (like ```json) UNLESS the target format is Markdown. \n    Just output the raw converted content. \n    If the input is an image or PDF, extract all relevant text and data structures and format them accordingly.\n    \n    IMPORTANT: If the input document contains tables, you MUST preserve the table structure in the target format (e.g., as Markdown tables, HTML <table> tags, CSV rows, or structured JSON arrays). Do not flatten tables into plain text unless requested."
  if target = TargetFormat.DOCX then
    let withDocx := base ++ "\n\nFor the target format DOCX (Word), please generate clean, semantic HTML5 code with inline styles suitable for a document. \n      Use <h1>, <h2> for headings, <table> for data, and <p> for text. Do not include <html> or <body> tags, just the content. \n      This HTML will be saved as a .doc file which Word can open."
    if isPdfInput then
      withDocx ++ "\n\nSince the input is a PDF, meticulously extract the text, tables, and document structure. Preserve the flow, hierarchy, and formatting (bold, italics) of the original document in the generated HTML to ensure the converted Word document closely matches the PDF."
    else withDocx
  else base

/-- The request config `convertContent` passes to the model call. -/
structure GenConfig where
  temperature : Rat
  systemInstruction : String
  responseMimeType : Option String
  deriving DecidableEq

/-- The config for a given input and target (JSON mode only for JSON). -/
def configFor (input : ConvInput) (target : TargetFormat) : GenConfig :=
  { temperature := (2 : Rat) / 10,
    systemInstruction := systemInstructionFor target (isPdfInputOf input),
    responseMimeType :=
      if target = TargetFormat.JSON then some "application/json" else none }

/-- The catch-block error enrichment of `convertContent` (the thrown error is
modelled by its message string; the `toString()` probe for "413" is applied
to the same string). -/
def classifyError (msg : String) : String :=
  if stringIncludes msg "Rpc failed" || stringIncludes msg "413" then
    "文件过大导致网络传输失败。虽然模型很强，但浏览器端传输受限，请尝试压缩 PDF 或使用小于 5MB 的文件。"
  else if stringIncludes msg "API_KEY" then
    "API Key 配置无效。"
  else if msg = "" then "转换内容失败，请重试。"
  else msg

/-- `convertContent`: build the parts and config, invoke the model (the
oracle `genai`; `Except.ok t` models a response whose `.text` is `t`, with
`none` for an absent text), and post-process: an empty or absent response
text becomes the fixed placeholder `"未生成任何内容。"`; a thrown error is
re-thrown after `classifyError` enrichment. -/
def convertContent (genai : List Part → GenConfig → Except String (Option String))
    (input : ConvInput) (target : TargetFormat) (instr : String) : Except String String :=
  match genai (partsFor input target instr) (configFor input target) with
  | Except.ok t =>
    let txt := t.getD ""
    Except.ok (if txt = "" then "未生成任何内容。" else txt)
  | Except.error msg => Except.error (classifyError msg)

/-! Concrete sample data for witnesses and counterexamples. -/

/-- The initial state created by `useState` in the app component. -/
def initState : ConversionState :=
  { inputMode := InputMode.text, inputText := "", batchFiles := [],
    activeFileId := none, targetFormat := TargetFormat.JSON,
    status := ConversionStatus.idle, textResult := "", error := none,
    additionalInstructions := "", customFilename := "" }

/-- A 6 MiB PDF candidate. -/
def bigFile : FileMeta := ⟨"big.pdf", "application/pdf", 6 * 1024 * 1024, "", ""⟩

/-- A small candidate with empty declared type and an unsupported extension. -/
def exeFile : FileMeta := ⟨"a.exe", "", 10, "", ""⟩

/-- A small PNG candidate. -/
def pngFile : FileMeta := ⟨"a.png", "image/png", 100, "", ""⟩

/-! Helper lemmas about `processFilesLoop`. -/

/-- The accepted items of a `processFiles` call are exactly the candidates
that pass `checkFile`, in their given order. -/
theorem processFilesLoop_files (files : List FileMeta) (n : Nat) :
    (processFilesLoop files n).1.map (fun it => it.file)
      = files.filter fun f => (checkFile f).isNone := by
  induction files generalizing n with
  | nil => rfl
  | cons f rest ih =>
    cases hc : checkFile f with
    | some msg => simp [processFilesLoop, hc, ih]
    | none => simp [processFilesLoop, hc, ih, mkItem]

/-- When some candidate is rejected, `processFiles` produces a rejection
message. -/
theorem processFilesLoop_msg (files : List FileMeta) (n : Nat)
    (h : (files.any fun f => (checkFile f).isSome) = true) :
    (processFilesLoop files n).2.isSome = true := by
  induction files generalizing n with
  | nil => simp at h
  | cons f rest ih =>
    cases hc : checkFile f with
    | some msg =>
      simp only [processFilesLoop, hc]
      cases hr : (processFilesLoop rest n).2 <;> simp [Option.orElse, hr]
    | none =>
      simp only [processFilesLoop, hc]
      simp only [List.any_cons, hc, Option.isSome_none, Bool.false_or] at h
      exact ih (n + 1) h

/-- Claim C3: each enqueue candidate is checked against the fixed 5 MiB size
ceiling and the type/extension allow-list; a failing candidate is never
appended, produces a rejection message, and does not block the other valid
candidates, which are appended in their given order. -/
theorem C3_admission (files : List FileMeta) (n : Nat) (s : ConversionState) :
    ((processFilesLoop files n).1.map (fun it => it.file)
        = files.filter fun f => (checkFile f).isNone)
    ∧ ((files.any fun f => (checkFile f).isSome) = true →
        (processFilesLoop files n).2.isSome = true)
    ∧ ((processFiles files n s).batchFiles = s.batchFiles ++ (processFilesLoop files n).1)
    ∧ (∀ f : FileMeta, f.size > 5 * 1024 * 1024 → (checkFile f).isSome = true) := by
  refine ⟨processFilesLoop_files files n, processFilesLoop_msg files n, rfl, ?_⟩
  intro f h
  unfold checkFile
  rw [if_pos (show f.size > MAX_SIZE from h)]
  rfl

/-- Witness for C3 at a concrete rejected 6 MiB candidate. -/
theorem C3_admission_witness :
    ((processFilesLoop [bigFile] 0).2.isSome = true)
    ∧ ((checkFile bigFile).isSome = true) :=
  ⟨(C3_admission [bigFile] 0 initState).2.1 (by decide),
   (C3_admission [] 0 initState).2.2.2 bigFile (by decide)⟩

set_option maxRecDepth 40000 in
/-- Counterexample for C4: the candidate `a.exe` with empty declared type is
admitted by `processFiles` even though its extension matches nothing in the
allow-list — the code skips the type check entirely when the declared type is
empty, so the extension does not decide admission. -/
theorem C4_counterexample :
    checkFile exeFile = none
    ∧ isValidMime exeFile = false
    ∧ isValidExt exeFile = false
    ∧ exeFile.type = ""
    ∧ exeFile.size ≤ MAX_SIZE := by
  refine ⟨?_, ?_, ?_, ?_, ?_⟩ <;> decide

/-- Claim C4 (amended): for a candidate within the size ceiling, admission
rejects it exactly when its declared content-type is nonempty and neither
the type nor the filename extension matches the allow-list; when the
declared type is empty the candidate is always admitted (the extension is
not consulted). -/
theorem C4_amended_type_check (f : FileMeta) (h : f.size ≤ MAX_SIZE) :
    checkFile f = none ↔ (f.type = "" ∨ isValidMime f = true ∨ isValidExt f = true) := by
  unfold checkFile
  rw [if_neg (Nat.not_lt.mpr h)]
  cases hm : isValidMime f <;> cases he : isValidExt f <;> cases ht : f.type == "" <;>
    simp_all [beq_iff_eq]

/-- Witness for C4 (amended) at a concrete admitted PNG candidate. -/
theorem C4_amended_type_check_witness :
    checkFile pngFile = none
      ↔ (pngFile.type = "" ∨ isValidMime pngFile = true ∨ isValidExt pngFile = true) :=
  C4_amended_type_check pngFile (by decide)

/-- A state with a pending error indicator, for the C8 counterexample. -/
def errState : ConversionState := { initState with error := some "boom" }

/-- Counterexample for C8: with a pending error in the state, selecting a
target format and editing the additional instructions leave the error in
place — only editing the input text clears it. -/
theorem C8_counterexample :
    (setTargetFormat TargetFormat.XML errState).error = some "boom"
    ∧ (setAdditionalInstructions "keep tables" errState).error = some "boom"
    ∧ (setInputText "x" errState).error = none :=
  ⟨rfl, rfl, rfl⟩

/-- Claim C8 (amended): each setter replaces only its own field;
`setInputText` additionally clears the pending error indicator, while
`setTargetFormat` and `setAdditionalInstructions` leave it unchanged. -/
theorem C8_amended_setters (s : ConversionState) (t : TargetFormat) (a b : String) :
    setTargetFormat t s = { s with targetFormat := t }
    ∧ (setTargetFormat t s).error = s.error
    ∧ setAdditionalInstructions a s = { s with additionalInstructions := a }
    ∧ (setAdditionalInstructions a s).error = s.error
    ∧ setInputText b s = { s with inputText := b, error := none } :=
  ⟨rfl, rfl, rfl, rfl, rfl⟩

/-- Claim C5: `handleConvert` fails fast with a validation error and performs
no external conversion call when, in single-text mode, the input text is
blank after trimming, or, in batch-file mode, the queue is empty; in both
cases the resulting state differs from the input state only in the error
message (in particular no item status changes). -/
theorem C5_fail_fast
    (oracle : FileMeta → TargetFormat → String → Except String String)
    (toracle : String → TargetFormat → String → Except String String)
    (s : ConversionState) :
    (s.inputMode = InputMode.text → jsTrim s.inputText = "" →
      handleConvert oracle toracle s
        = ({ s with error := some "请输入需要转换的文本。" }, [], []))
    ∧ (s.inputMode = InputMode.file → s.batchFiles = [] →
      handleConvert oracle toracle s
        = ({ s with error := some "请至少选择一个文件。" }, [], [])) := by
  constructor
  · intro h1 h2
    unfold handleConvert
    rw [if_pos ⟨h1, h2⟩]
  · intro h1 h2
    have hne : ¬ (s.inputMode = InputMode.text ∧ jsTrim s.inputText = "") := by
      rintro ⟨ht, -⟩
      rw [h1] at ht
      exact absurd ht (by decide)
    unfold handleConvert
    rw [if_neg hne, if_pos ⟨h1, h2⟩]

/-- An empty-queue file-mode state for the C5 witness. -/
def fileEmptyState : ConversionState := { initState with inputMode := InputMode.file }

/-- A sample oracle that always succeeds. -/
def okOracle : FileMeta → TargetFormat → String → Except String String :=
  fun _ _ _ => Except.ok "converted"

/-- A sample text oracle that always succeeds. -/
def okTextOracle : String → TargetFormat → String → Except String String :=
  fun _ _ _ => Except.ok "converted"

/-- Witness for C5 at both concrete invalid states. -/
theorem C5_fail_fast_witness :
    handleConvert okOracle okTextOracle initState
      = ({ initState with error := some "请输入需要转换的文本。" }, [], [])
    ∧ handleConvert okOracle okTextOracle fileEmptyState
      = ({ fileEmptyState with error := some "请至少选择一个文件。" }, [], []) :=
  ⟨(C5_fail_fast okOracle okTextOracle initState).1 rfl rfl,
   (C5_fail_fast okOracle okTextOracle fileEmptyState).2 rfl rfl⟩

/-- When a list's head is `some f`, the item `f` is a member. -/
theorem head?_mem_any (l : List BatchFileItem) (f : BatchFileItem)
    (h : l.head? = some f) : (l.any fun g => g.id == f.id) = true := by
  cases l with
  | nil => simp at h
  | cons a t =>
    simp only [List.head?_cons, Option.some.injEq] at h
    subst h
    simp [List.any_cons]

/-- When a list's head is `some f`, the item `f` is a member. -/
theorem head?_mem_list (l : List BatchFileItem) (f : BatchFileItem)
    (h : l.head? = some f) : f ∈ l := by
  cases l with
  | nil => simp at h
  | cons a t =>
    simp only [List.head?_cons, Option.some.injEq] at h
    subst h
    exact List.mem_cons_self a t

/-- Claim C6: the invariant "the active id is unset or names an item present
in the queue" is preserved by `processFiles`, `removeFile` and active-item
selection; `processFiles` sets the active id to the first accepted item when
it was unset, and removing the active item reassigns the active id to the
first remaining item (or clears it when the queue becomes empty). -/
theorem C6_active_invariant (s : ConversionState) (files : List FileMeta) (n id : Nat) :
    (activeOkB s = true → activeOkB (processFiles files n s) = true)
    ∧ (activeOkB s = true → activeOkB (removeFile id s) = true)
    ∧ ((s.batchFiles.any fun f => f.id == id) = true → activeOkB (selectFile id s) = true)
    ∧ (s.activeFileId = none →
        (processFiles files n s).activeFileId
          = (processFilesLoop files n).1.head?.map fun f => f.id)
    ∧ (s.activeFileId = some id →
        (removeFile id s).activeFileId
          = (s.batchFiles.filter fun f => !(f.id == id)).head?.map fun f => f.id) := by
  refine ⟨?_, ?_, ?_, ?_, ?_⟩
  · intro h
    cases ha : s.activeFileId with
    | some a =>
      have hb : (s.batchFiles.any fun f => f.id == a) = true := by
        simpa [activeOkB, ha] using h
      simp [activeOkB, processFiles, ha, List.any_append, hb]
    | none =>
      cases hh : (processFilesLoop files n).1.head? with
      | none => simp [activeOkB, processFiles, ha, hh]
      | some f =>
        simp [activeOkB, processFiles, ha, hh, List.any_append, head?_mem_any _ f hh]
  · intro h
    by_cases hc : s.activeFileId = some id
    · cases hh : (s.batchFiles.filter fun f => !(f.id == id)).head? with
      | none => simp [activeOkB, removeFile, hc, hh]
      | some f =>
        have hf := List.mem_filter.mp (head?_mem_list _ f hh)
        simp [activeOkB, removeFile, hc, hh, List.any_eq_true]
        exact ⟨f, hf.1, by simpa using hf.2, rfl⟩
    · cases ha : s.activeFileId with
      | none => simp [activeOkB, removeFile, hc, ha]
      | some a =>
        rw [ha] at hc
        have hne : a ≠ id := fun he => hc (by rw [he])
        have hb : (s.batchFiles.any fun f => f.id == a) = true := by
          simpa [activeOkB, ha] using h
        simp only [List.any_eq_true] at hb
        obtain ⟨f, hf, hfa⟩ := hb
        have hfa' : f.id = a := by simpa using hfa
        simp only [activeOkB, removeFile, ha, if_neg hc, Option.all_some,
          List.any_eq_true]
        exact ⟨f, List.mem_filter.mpr ⟨hf, by simp [hfa', hne]⟩, hfa⟩
  · intro h
    simpa [activeOkB, selectFile] using h
  · intro h
    cases hh : (processFilesLoop files n).1.head? <;>
      simp [processFiles, h, hh]
  · intro h
    cases hh : (s.batchFiles.filter fun f => !(f.id == id)).head? <;>
      simp [removeFile, h, hh]

/-- A one-item file-mode state whose single item is active, for witnesses. -/
def stOne : ConversionState :=
  { initState with
    inputMode := InputMode.file,
    batchFiles := [mkItem 0 pngFile],
    activeFileId := some 0 }

/-- Witness for C6 at a concrete state with one active item. -/
theorem C6_active_invariant_witness :
    activeOkB (processFiles [pngFile] 1 stOne) = true
    ∧ activeOkB (removeFile 0 stOne) = true
    ∧ activeOkB (selectFile 0 stOne) = true
    ∧ (removeFile 0 stOne).activeFileId
        = (stOne.batchFiles.filter fun f => !(f.id == 0)).head?.map fun f => f.id :=
  ⟨(C6_active_invariant stOne [pngFile] 1 0).1 (by decide),
   (C6_active_invariant stOne [pngFile] 1 0).2.1 (by decide),
   (C6_active_invariant stOne [pngFile] 1 0).2.2.1 (by decide),
   (C6_active_invariant stOne [pngFile] 1 0).2.2.2.2 rfl⟩

/-! Helper lemmas for the batch loop. -/

/-- `updateById` leaves a list untouched when no element carries the id. -/
theorem map_update_eq_self (u : BatchFileItem → BatchFileItem) (id0 : Nat)
    (l : List BatchFileItem) (h : ∀ x ∈ l, x.id ≠ id0) :
    (l.map fun x => if x.id = id0 then u x else x) = l := by
  induction l with
  | nil => rfl
  | cons a t ih =>
    simp only [List.map_cons]
    rw [if_neg (h a (List.mem_cons_self a t)), ih fun x hx => h x (List.mem_cons_of_mem a hx)]

/-- `updateById` rewrites exactly the distinguished occurrence when the
surrounding elements carry different ids. -/
theorem updateById_split (u : BatchFileItem → BatchFileItem)
    (l1 l2 : List BatchFileItem) (f : BatchFileItem)
    (h1 : ∀ x ∈ l1, x.id ≠ f.id) (h2 : ∀ x ∈ l2, x.id ≠ f.id) :
    updateById f.id u (l1 ++ f :: l2) = l1 ++ u f :: l2 := by
  unfold updateById
  rw [List.map_append, List.map_cons, map_update_eq_self u f.id l1 h1,
    map_update_eq_self u f.id l2 h2, if_pos rfl]

/-- Splitting a nodup id list around one element gives both disjointness
facts. -/
theorem nodup_ids_split (l1 l2 : List BatchFileItem) (f : BatchFileItem)
    (h : ((l1 ++ f :: l2).map fun x => x.id).Nodup) :
    (∀ x ∈ l1, x.id ≠ f.id) ∧ (∀ x ∈ l2, x.id ≠ f.id) := by
  rw [List.map_append, List.map_cons, List.nodup_append] at h
  obtain ⟨h1, h2, hdis⟩ := h
  refine ⟨?_, ?_⟩
  · intro x hx heq
    exact hdis (List.mem_map_of_mem _ hx) (heq ▸ List.mem_cons_self _ _)
  · intro x hx heq
    have hmem : f.id ∈ l2.map fun x => x.id := by
      rw [← heq]
      exact List.mem_map_of_mem _ hx
    exact (List.nodup_cons.mp h2).1 hmem

/-- `processItem` preserves the item id. -/
theorem processItem_id (conv : FileMeta → Except String String) (f : BatchFileItem) :
    (processItem conv f).id = f.id := by
  by_cases h : f.status = ConversionStatus.success
  · simp [processItem, h]
  · cases hc : conv f.file <;> simp [processItem, h, hc]

/-- Unfolding equation: empty snapshot. -/
theorem runBatchAux_nil (conv : FileMeta → Except String String)
    (s : ConversionState) (calls : List ConvCall) (trace : List ConversionState) :
    runBatchAux conv [] s calls trace
      = ({ s with status := ConversionStatus.idle }, calls,
         trace ++ [{ s with status := ConversionStatus.idle }]) := rfl

/-- Unfolding equation: a `success` snapshot item is skipped. -/
theorem runBatchAux_cons_skip (conv : FileMeta → Except String String)
    (f : BatchFileItem) (rest : List BatchFileItem) (s : ConversionState)
    (calls : List ConvCall) (trace : List ConversionState)
    (h : f.status = ConversionStatus.success) :
    runBatchAux conv (f :: rest) s calls trace
      = runBatchAux conv rest s calls trace := by
  rw [runBatchAux, if_pos h]

/-- Unfolding equation: a non-`success` item whose conversion succeeds. -/
theorem runBatchAux_cons_ok (conv : FileMeta → Except String String)
    (f : BatchFileItem) (rest : List BatchFileItem) (s : ConversionState)
    (calls : List ConvCall) (trace : List ConversionState) (r : String)
    (h : ¬ f.status = ConversionStatus.success) (hc : conv f.file = Except.ok r) :
    runBatchAux conv (f :: rest) s calls trace
      = runBatchAux conv rest
          { s with
            activeFileId := some f.id,
            batchFiles := markSuccess f.id r (markProcessing f.id s.batchFiles) }
          (calls ++ [ConvCall.file f.id])
          (trace ++
            [{ s with
                activeFileId := some f.id,
                batchFiles := markProcessing f.id s.batchFiles },
             { s with
                activeFileId := some f.id,
                batchFiles := markSuccess f.id r (markProcessing f.id s.batchFiles) }]) := by
  rw [runBatchAux, if_neg h, hc]

/-- Unfolding equation: a non-`success` item whose conversion fails. -/
theorem runBatchAux_cons_err (conv : FileMeta → Except String String)
    (f : BatchFileItem) (rest : List BatchFileItem) (s : ConversionState)
    (calls : List ConvCall) (trace : List ConversionState) (e : String)
    (h : ¬ f.status = ConversionStatus.success) (hc : conv f.file = Except.error e) :
    runBatchAux conv (f :: rest) s calls trace
      = runBatchAux conv rest
          { s with
            activeFileId := some f.id,
            batchFiles := markError f.id e (markProcessing f.id s.batchFiles) }
          (calls ++ [ConvCall.file f.id])
          (trace ++
            [{ s with
                activeFileId := some f.id,
                batchFiles := markProcessing f.id s.batchFiles },
             { s with
                activeFileId := some f.id,
                batchFiles := markError f.id e (markProcessing f.id s.batchFiles) }]) := by
  rw [runBatchAux, if_neg h, hc]

/-- For a non-`success` item `f` in context `done ++ f :: rest` with nodup
ids, the two `setState` marks of a successful call rewrite exactly `f`, to
`processItem conv f`. -/
theorem marks_ok (conv : FileMeta → Except String String)
    (done rest : List BatchFileItem) (f : BatchFileItem) (r : String)
    (hd1 : ∀ x ∈ done, x.id ≠ f.id) (hd2 : ∀ x ∈ rest, x.id ≠ f.id)
    (hst : ¬ f.status = ConversionStatus.success) (hc : conv f.file = Except.ok r) :
    markSuccess f.id r (markProcessing f.id (done ++ f :: rest))
      = done ++ processItem conv f :: rest := by
  have hg : processItem conv f
      = { f with status := ConversionStatus.success, result := some r, error := none } := by
    simp [processItem, hst, hc]
  unfold markProcessing markSuccess
  rw [updateById_split _ done rest f hd1 hd2]
  rw [hg]
  exact updateById_split _ done rest
    { f with status := ConversionStatus.processing, error := none } hd1 hd2

/-- For a non-`success` item `f` in context `done ++ f :: rest` with nodup
ids, the two `setState` marks of a failed call rewrite exactly `f`, to
`processItem conv f`. -/
theorem marks_err (conv : FileMeta → Except String String)
    (done rest : List BatchFileItem) (f : BatchFileItem) (e : String)
    (hd1 : ∀ x ∈ done, x.id ≠ f.id) (hd2 : ∀ x ∈ rest, x.id ≠ f.id)
    (hst : ¬ f.status = ConversionStatus.success) (hc : conv f.file = Except.error e) :
    markError f.id e (markProcessing f.id (done ++ f :: rest))
      = done ++ processItem conv f :: rest := by
  have hg : processItem conv f
      = { f with status := ConversionStatus.error, error := some e } := by
    simp [processItem, hst, hc]
  unfold markProcessing markError
  rw [updateById_split _ done rest f hd1 hd2]
  rw [hg]
  exact updateById_split _ done rest
    { f with status := ConversionStatus.processing, error := none } hd1 hd2

set_option maxRecDepth 4000 in
/-- Characterization of the batch loop: starting from a state whose queue is
an already-processed part `done` followed by the pending snapshot `todo`
(ids nodup), the loop maps `processItem` over `todo`, returns the overall
status to `idle`, and performs exactly one external call per non-`success`
snapshot item, in order. -/
theorem runBatchAux_spec (conv : FileMeta → Except String String) :
    ∀ (todo done : List BatchFileItem) (s : ConversionState)
      (calls : List ConvCall) (trace : List ConversionState),
    s.batchFiles = done ++ todo →
    ((done ++ todo).map fun x => x.id).Nodup →
    (runBatchAux conv todo s calls trace).1.batchFiles = done ++ todo.map (processItem conv)
    ∧ (runBatchAux conv todo s calls trace).1.status = ConversionStatus.idle
    ∧ (runBatchAux conv todo s calls trace).2.1
        = calls ++ (todo.filter fun f => !(f.status == ConversionStatus.success)).map
            fun f => ConvCall.file f.id := by
  intro todo
  induction todo with
  | nil =>
    intro done s calls trace hb hnd
    rw [runBatchAux_nil]
    refine ⟨?_, rfl, ?_⟩
    · show s.batchFiles = _
      rw [hb]
      simp
    · show calls = _
      simp
  | cons f rest ih =>
    intro done s calls trace hb hnd
    obtain ⟨hd1, hd2⟩ := nodup_ids_split done rest f hnd
    by_cases hst : f.status = ConversionStatus.success
    · rw [runBatchAux_cons_skip conv f rest s calls trace hst]
      have hb' : s.batchFiles = (done ++ [f]) ++ rest := by
        rw [hb, List.append_cons]
      have hnd' : (((done ++ [f]) ++ rest).map fun x => x.id).Nodup := by
        rw [← List.append_cons]
        exact hnd
      obtain ⟨hA, hB, hC⟩ := ih (done ++ [f]) s calls trace hb' hnd'
      have hgf : processItem conv f = f := by simp [processItem, hst]
      have hpf : ¬ ((!(f.status == ConversionStatus.success)) = true) := by simp [hst]
      refine ⟨?_, hB, ?_⟩
      · rw [hA, List.map_cons, hgf, List.append_assoc, List.singleton_append]
      · rw [hC, List.filter_cons, if_neg hpf]
    · have hmark : ∀ r, conv f.file = Except.ok r →
          markSuccess f.id r (markProcessing f.id s.batchFiles)
            = done ++ processItem conv f :: rest := by
        intro r hc
        rw [hb]
        exact marks_ok conv done rest f r hd1 hd2 hst hc
      have hmark' : ∀ e, conv f.file = Except.error e →
          markError f.id e (markProcessing f.id s.batchFiles)
            = done ++ processItem conv f :: rest := by
        intro e hc
        rw [hb]
        exact marks_err conv done rest f e hd1 hd2 hst hc
      have hnd' : (((done ++ [processItem conv f]) ++ rest).map fun x => x.id).Nodup := by
        have hids : ((done ++ [processItem conv f]) ++ rest).map (fun x => x.id)
            = (done ++ f :: rest).map fun x => x.id := by
          simp [processItem_id]
        rw [hids]
        exact hnd
      have hq : (f.status == ConversionStatus.success) = false := by simpa using hst
      cases hc : conv f.file with
      | ok r =>
        rw [runBatchAux_cons_ok conv f rest s calls trace r hst hc, hmark r hc]
        obtain ⟨hA, hB, hC⟩ := ih (done ++ [processItem conv f])
          { s with
            activeFileId := some f.id,
            batchFiles := done ++ processItem conv f :: rest }
          (calls ++ [ConvCall.file f.id])
          (trace ++
            [{ s with
                activeFileId := some f.id,
                batchFiles := markProcessing f.id s.batchFiles },
             { s with
                activeFileId := some f.id,
                batchFiles := done ++ processItem conv f :: rest }])
          (by rw [← List.append_cons]) hnd'
        have hpt : (!(f.status == ConversionStatus.success)) = true := by simp [hst]
        refine ⟨?_, hB, ?_⟩
        · rw [hA, List.map_cons, List.append_assoc, List.singleton_append]
        · rw [hC, List.filter_cons, if_pos hpt, List.map_cons, List.append_assoc,
            List.singleton_append]
      | error e =>
        rw [runBatchAux_cons_err conv f rest s calls trace e hst hc, hmark' e hc]
        obtain ⟨hA, hB, hC⟩ := ih (done ++ [processItem conv f])
          { s with
            activeFileId := some f.id,
            batchFiles := done ++ processItem conv f :: rest }
          (calls ++ [ConvCall.file f.id])
          (trace ++
            [{ s with
                activeFileId := some f.id,
                batchFiles := markProcessing f.id s.batchFiles },
             { s with
                activeFileId := some f.id,
                batchFiles := done ++ processItem conv f :: rest }])
          (by rw [← List.append_cons]) hnd'
        have hpt : (!(f.status == ConversionStatus.success)) = true := by simp [hst]
        refine ⟨?_, hB, ?_⟩
        · rw [hA, List.map_cons, List.append_assoc, List.singleton_append]
        · rw [hC, List.filter_cons, if_pos hpt, List.map_cons, List.append_assoc,
            List.singleton_append]

/-- In file mode with a non-empty queue, `handleConvert` reduces to the batch
loop over the queue snapshot, run from the `processing` state. -/
theorem handleConvert_file_red
    (oracle : FileMeta → TargetFormat → String → Except String String)
    (toracle : String → TargetFormat → String → Except String String)
    (s : ConversionState)
    (hmode : s.inputMode = InputMode.file) (hne : s.batchFiles ≠ []) :
    handleConvert oracle toracle s
      = runBatchAux (fun f => oracle f s.targetFormat s.additionalInstructions)
          s.batchFiles { s with status := ConversionStatus.processing, error := none } []
          [{ s with status := ConversionStatus.processing, error := none }] := by
  have h1 : ¬ (s.inputMode = InputMode.text ∧ jsTrim s.inputText = "") := by
    rintro ⟨ht, -⟩
    rw [hmode] at ht
    exact absurd ht (by decide)
  have h2 : ¬ (s.inputMode = InputMode.file ∧ s.batchFiles = []) := by
    rintro ⟨-, hbf⟩
    exact hne hbf
  unfold handleConvert
  rw [if_neg h1, if_neg h2, hmode]

/-- Claim C2: a batch run attempts every eligible (non-`success`) item in
queue order — one external call each, in order; an item whose call fails is
recorded as `error` with the error's message while the loop continues, an
item whose call succeeds stores the returned text and becomes `success`
(the per-item net effect being `processItem`), and after all items have been
attempted the overall run status returns to `idle`. -/
theorem C2_batch_partial_failure
    (oracle : FileMeta → TargetFormat → String → Except String String)
    (toracle : String → TargetFormat → String → Except String String)
    (s : ConversionState)
    (hmode : s.inputMode = InputMode.file) (hne : s.batchFiles ≠ [])
    (hnd : (s.batchFiles.map fun f => f.id).Nodup) :
    (handleConvert oracle toracle s).1.status = ConversionStatus.idle
    ∧ (handleConvert oracle toracle s).1.batchFiles
        = s.batchFiles.map
            (processItem fun f => oracle f s.targetFormat s.additionalInstructions)
    ∧ (handleConvert oracle toracle s).2.1
        = (s.batchFiles.filter fun f => !(f.status == ConversionStatus.success)).map
            fun f => ConvCall.file f.id := by
  rw [handleConvert_file_red oracle toracle s hmode hne]
  obtain ⟨hA, hB, hC⟩ :=
    runBatchAux_spec (fun f => oracle f s.targetFormat s.additionalInstructions)
      s.batchFiles []
      { s with status := ConversionStatus.processing, error := none }
      [] [{ s with status := ConversionStatus.processing, error := none }]
      (by simp) (by simpa using hnd)
  exact ⟨hB, by simpa using hA, by simpa using hC⟩

/-- A small textual file and a small binary file, as sample payloads. -/
def fTxt : FileMeta := ⟨"a.txt", "text/plain", 3, "hi", "aGk="⟩

/-- A small PDF file, as a sample binary payload. -/
def fPdf : FileMeta := ⟨"b.pdf", "application/pdf", 9, "", "JVBERg=="⟩

/-- A two-item file-mode queue (both items pending). -/
def sTwo : ConversionState :=
  { initState with
    inputMode := InputMode.file,
    batchFiles := [mkItem 0 fTxt, mkItem 1 fPdf],
    activeFileId := some 0 }

/-- A sample oracle succeeding on the textual item and failing on the PDF. -/
def evenOddOracle : FileMeta → TargetFormat → String → Except String String :=
  fun f _ _ => if f.name == "a.txt" then Except.ok "ok-a" else Except.error "boom-b"

/-- Witness for C2: a concrete two-item run with one success and one failure. -/
theorem C2_batch_partial_failure_witness :
    (handleConvert evenOddOracle okTextOracle sTwo).1.status = ConversionStatus.idle
    ∧ (handleConvert evenOddOracle okTextOracle sTwo).1.batchFiles
        = sTwo.batchFiles.map
            (processItem fun f => evenOddOracle f sTwo.targetFormat sTwo.additionalInstructions)
    ∧ (handleConvert evenOddOracle okTextOracle sTwo).2.1
        = (sTwo.batchFiles.filter fun f => !(f.status == ConversionStatus.success)).map
            fun f => ConvCall.file f.id :=
  C2_batch_partial_failure evenOddOracle okTextOracle sTwo rfl (by decide) (by decide)

/-- A queue item already in the `error` (failed) state. -/
def errItem : BatchFileItem := ⟨0, fTxt, ConversionStatus.error, none, some "old-failure"⟩

/-- A file-mode state whose single item previously failed. -/
def sFailed : ConversionState :=
  { initState with
    inputMode := InputMode.file,
    batchFiles := [errItem],
    activeFileId := some 0 }

/-- Counterexample for C1: re-running the batch over a queue whose only item
is in the failed state performs an external call for it — no explicit retry
request or re-arming to pending is required or even possible; failed items
are not skipped. -/
theorem C1_counterexample :
    sFailed.batchFiles.map (fun f => f.status) = [ConversionStatus.error]
    ∧ (handleConvert okOracle okTextOracle sFailed).2.1 = [ConvCall.file 0] := by
  refine ⟨rfl, ?_⟩
  decide

/-- Claim C1 (amended): on a repeat run in file mode, every item whose status
is `success` is skipped (no external conversion call is made for it, and the
item is left untouched in the queue); every other item — including items in
the failed state — is reprocessed automatically, without any explicit retry
request: the calls made are exactly the non-`success` items, in queue
order. -/
theorem C1_amended_repeat_run
    (oracle : FileMeta → TargetFormat → String → Except String String)
    (toracle : String → TargetFormat → String → Except String String)
    (s : ConversionState)
    (hmode : s.inputMode = InputMode.file) (hne : s.batchFiles ≠ [])
    (hnd : (s.batchFiles.map fun f => f.id).Nodup) :
    ((handleConvert oracle toracle s).2.1
      = (s.batchFiles.filter fun f => !(f.status == ConversionStatus.success)).map
          fun f => ConvCall.file f.id)
    ∧ ∀ f ∈ s.batchFiles, f.status = ConversionStatus.success →
        f ∈ (handleConvert oracle toracle s).1.batchFiles := by
  rw [handleConvert_file_red oracle toracle s hmode hne]
  obtain ⟨hA, hB, hC⟩ :=
    runBatchAux_spec (fun f => oracle f s.targetFormat s.additionalInstructions)
      s.batchFiles []
      { s with status := ConversionStatus.processing, error := none }
      [] [{ s with status := ConversionStatus.processing, error := none }]
      (by simp) (by simpa using hnd)
  refine ⟨by simpa using hC, ?_⟩
  intro f hf hsucc
  have hA' := hA
  rw [List.nil_append] at hA'
  rw [hA']
  exact List.mem_map.mpr ⟨f, hf, by simp [processItem, hsucc]⟩

/-- A queue item already converted successfully. -/
def doneItem : BatchFileItem := ⟨0, fTxt, ConversionStatus.success, some "prev", none⟩

/-- A file-mode state with one already-succeeded item and one pending item. -/
def sMixed : ConversionState :=
  { initState with
    inputMode := InputMode.file,
    batchFiles := [doneItem, mkItem 1 fPdf],
    activeFileId := some 0 }

/-- Witness for C1 (amended): in a concrete mixed queue, only the pending
item is called and the succeeded item survives untouched. -/
theorem C1_amended_repeat_run_witness :
    ((handleConvert okOracle okTextOracle sMixed).2.1
      = (sMixed.batchFiles.filter fun f => !(f.status == ConversionStatus.success)).map
          fun f => ConvCall.file f.id)
    ∧ doneItem ∈ (handleConvert okOracle okTextOracle sMixed).1.batchFiles :=
  ⟨(C1_amended_repeat_run okOracle okTextOracle sMixed rfl (by decide) (by decide)).1,
   (C1_amended_repeat_run okOracle okTextOracle sMixed rfl (by decide) (by decide)).2
     doneItem (by decide) rfl⟩

/-- Under `itemOkB`, an item that is not in `success` has no stored result. -/
theorem result_none_of_ok (f : BatchFileItem) (h : itemOkB f = true)
    (hs : ¬ f.status = ConversionStatus.success) : f.result = none := by
  unfold itemOkB at h
  rw [Bool.and_eq_true] at h
  have hb : (f.status == ConversionStatus.success) = false := by simpa using hs
  have h1 := h.1
  rw [hb] at h1
  cases hr : f.result with
  | none => rfl
  | some v =>
    rw [hr] at h1
    simp at h1

/-- `processItem` preserves the per-item `result`/`error` discipline. -/
theorem processItem_ok (conv : FileMeta → Except String String)
    (f : BatchFileItem) (h : itemOkB f = true) :
    itemOkB (processItem conv f) = true := by
  by_cases hs : f.status = ConversionStatus.success
  · simpa [processItem, hs] using h
  · have hres := result_none_of_ok f h hs
    cases hc : conv f.file with
    | ok r => simp [processItem, hs, hc, itemOkB]
    | error e => simp [processItem, hs, hc, itemOkB, hres]

/-- Freshly enqueued items satisfy the per-item discipline. -/
theorem processFilesLoop_ok (files : List FileMeta) (n : Nat) :
    ∀ f ∈ (processFilesLoop files n).1, itemOkB f = true := by
  induction files generalizing n with
  | nil =>
    intro f hf
    simp [processFilesLoop] at hf
  | cons g rest ih =>
    intro f hf
    cases hc : checkFile g with
    | some msg =>
      simp only [processFilesLoop, hc] at hf
      exact ih n f hf
    | none =>
      simp only [processFilesLoop, hc] at hf
      rcases List.mem_cons.mp hf with h | h
      · rw [h]
        rfl
      · exact ih (n + 1) f h

set_option maxRecDepth 4000 in
/-- Every state in the batch loop's `setState` trace (including the final
state) keeps the per-item `result`/`error` discipline, provided all incoming
items and trace states do. -/
theorem runBatchAux_allOk (conv : FileMeta → Except String String) :
    ∀ (todo done : List BatchFileItem) (s : ConversionState)
      (calls : List ConvCall) (trace : List ConversionState),
    s.batchFiles = done ++ todo →
    ((done ++ todo).map fun x => x.id).Nodup →
    (∀ f ∈ s.batchFiles, itemOkB f = true) →
    (∀ st ∈ trace, ∀ f ∈ st.batchFiles, itemOkB f = true) →
    ∀ st ∈ (runBatchAux conv todo s calls trace).2.2, ∀ f ∈ st.batchFiles,
      itemOkB f = true := by
  intro todo
  induction todo with
  | nil =>
    intro done s calls trace hb hnd hok htr st hst
    rw [runBatchAux_nil] at hst
    rcases List.mem_append.mp hst with h | h
    · exact htr st h
    · have hst' : st = { s with status := ConversionStatus.idle } := by simpa using h
      subst hst'
      intro f hf
      exact hok f hf
  | cons g rest ih =>
    intro done s calls trace hb hnd hok htr
    obtain ⟨hd1, hd2⟩ := nodup_ids_split done rest g hnd
    have hgmem : g ∈ s.batchFiles := by
      rw [hb]
      exact List.mem_append.mpr (Or.inr (List.mem_cons_self g rest))
    have hmemdone : ∀ x ∈ done, x ∈ s.batchFiles := by
      intro x hx
      rw [hb]
      exact List.mem_append.mpr (Or.inl hx)
    have hmemrest : ∀ x ∈ rest, x ∈ s.batchFiles := by
      intro x hx
      rw [hb]
      exact List.mem_append.mpr (Or.inr (List.mem_cons_of_mem g hx))
    by_cases hst : g.status = ConversionStatus.success
    · rw [runBatchAux_cons_skip conv g rest s calls trace hst]
      exact ih (done ++ [g]) s calls trace (by rw [hb, List.append_cons])
        (by rw [← List.append_cons]; exact hnd) hok htr
    · have hres : g.result = none := result_none_of_ok g (hok g hgmem) hst
      have hprocOk :
          itemOkB { g with status := ConversionStatus.processing, error := none } = true := by
        simp [itemOkB, hres]
      have e1 : markProcessing g.id s.batchFiles
          = done ++ { g with status := ConversionStatus.processing, error := none } :: rest := by
        rw [hb]
        exact updateById_split _ done rest g hd1 hd2
      have hmark : ∀ r, conv g.file = Except.ok r →
          markSuccess g.id r (markProcessing g.id s.batchFiles)
            = done ++ processItem conv g :: rest := by
        intro r hc
        rw [hb]
        exact marks_ok conv done rest g r hd1 hd2 hst hc
      have hmark' : ∀ e, conv g.file = Except.error e →
          markError g.id e (markProcessing g.id s.batchFiles)
            = done ++ processItem conv g :: rest := by
        intro e hc
        rw [hb]
        exact marks_err conv done rest g e hd1 hd2 hst hc
      have hprocAll : ∀ f ∈ done ++
          { g with status := ConversionStatus.processing, error := none } :: rest,
          itemOkB f = true := by
        intro f hf
        rcases List.mem_append.mp hf with h | h
        · exact hok f (hmemdone f h)
        · rcases List.mem_cons.mp h with h' | h'
          · rw [h']
            exact hprocOk
          · exact hok f (hmemrest f h')
      have hgOk : itemOkB (processItem conv g) = true := processItem_ok conv g (hok g hgmem)
      have hdoneAll : ∀ f ∈ done ++ processItem conv g :: rest, itemOkB f = true := by
        intro f hf
        rcases List.mem_append.mp hf with h | h
        · exact hok f (hmemdone f h)
        · rcases List.mem_cons.mp h with h' | h'
          · rw [h']
            exact hgOk
          · exact hok f (hmemrest f h')
      have hnd' : (((done ++ [processItem conv g]) ++ rest).map fun x => x.id).Nodup := by
        have hids : ((done ++ [processItem conv g]) ++ rest).map (fun x => x.id)
            = (done ++ g :: rest).map fun x => x.id := by
          simp [processItem_id]
        rw [hids]
        exact hnd
      cases hc : conv g.file with
      | ok r =>
        rw [runBatchAux_cons_ok conv g rest s calls trace r hst hc, hmark r hc]
        refine ih (done ++ [processItem conv g])
          { s with
            activeFileId := some g.id,
            batchFiles := done ++ processItem conv g :: rest }
          (calls ++ [ConvCall.file g.id])
          (trace ++
            [{ s with
                activeFileId := some g.id,
                batchFiles := markProcessing g.id s.batchFiles },
             { s with
                activeFileId := some g.id,
                batchFiles := done ++ processItem conv g :: rest }])
          (by rw [← List.append_cons]) hnd' hdoneAll ?_
        intro st hstm
        rcases List.mem_append.mp hstm with h | h
        · exact htr st h
        · rcases List.mem_cons.mp h with h' | h'
          · rw [h']
            intro f hf
            have hf' : f ∈ markProcessing g.id s.batchFiles := hf
            rw [e1] at hf'
            exact hprocAll f hf'
          · rcases List.mem_cons.mp h' with h'' | h''
            · rw [h'']
              intro f hf
              have hf' : f ∈ done ++ processItem conv g :: rest := hf
              exact hdoneAll f hf'
            · simp at h''
      | error e =>
        rw [runBatchAux_cons_err conv g rest s calls trace e hst hc, hmark' e hc]
        refine ih (done ++ [processItem conv g])
          { s with
            activeFileId := some g.id,
            batchFiles := done ++ processItem conv g :: rest }
          (calls ++ [ConvCall.file g.id])
          (trace ++
            [{ s with
                activeFileId := some g.id,
                batchFiles := markProcessing g.id s.batchFiles },
             { s with
                activeFileId := some g.id,
                batchFiles := done ++ processItem conv g :: rest }])
          (by rw [← List.append_cons]) hnd' hdoneAll ?_
        intro st hstm
        rcases List.mem_append.mp hstm with h | h
        · exact htr st h
        · rcases List.mem_cons.mp h with h' | h'
          · rw [h']
            intro f hf
            have hf' : f ∈ markProcessing g.id s.batchFiles := hf
            rw [e1] at hf'
            exact hprocAll f hf'
          · rcases List.mem_cons.mp h' with h'' | h''
            · rw [h'']
              intro f hf
              have hf' : f ∈ done ++ processItem conv g :: rest := hf
              exact hdoneAll f hf'
            · simp at h''

/-- Claim C7: freshly enqueued items carry neither `result` nor `error`, and
throughout a run of `handleConvert` — at every state the run's `setState`
sequence produces, and in the final state — every queue item has `result`
set exactly when its status is `success` and `error` set exactly when its
status is `error` (so never both, and neither in `idle`/`processing`). -/
theorem C7_result_error_invariant (files : List FileMeta) (n : Nat)
    (oracle : FileMeta → TargetFormat → String → Except String String)
    (toracle : String → TargetFormat → String → Except String String)
    (s : ConversionState) :
    (∀ f ∈ (processFilesLoop files n).1, itemOkB f = true)
    ∧ ((∀ f ∈ s.batchFiles, itemOkB f = true) →
        (s.batchFiles.map fun f => f.id).Nodup →
        (∀ st ∈ (handleConvert oracle toracle s).2.2, ∀ f ∈ st.batchFiles,
          itemOkB f = true)
        ∧ ∀ f ∈ (handleConvert oracle toracle s).1.batchFiles, itemOkB f = true) := by
  refine ⟨processFilesLoop_ok files n, ?_⟩
  intro hok hnd
  by_cases h1 : s.inputMode = InputMode.text ∧ jsTrim s.inputText = ""
  · have hred : handleConvert oracle toracle s
        = ({ s with error := some "请输入需要转换的文本。" }, [], []) := by
      unfold handleConvert
      rw [if_pos h1]
    rw [hred]
    refine ⟨?_, ?_⟩
    · intro st hst
      simp at hst
    · intro f hf
      exact hok f hf
  by_cases h2 : s.inputMode = InputMode.file ∧ s.batchFiles = []
  · have hred : handleConvert oracle toracle s
        = ({ s with error := some "请至少选择一个文件。" }, [], []) := by
      unfold handleConvert
      rw [if_neg h1, if_pos h2]
    rw [hred]
    refine ⟨?_, ?_⟩
    · intro st hst
      simp at hst
    · intro f hf
      exact hok f hf
  cases hm : s.inputMode with
  | text =>
    cases ht : toracle s.inputText s.targetFormat s.additionalInstructions with
    | ok r =>
      have hred : handleConvert oracle toracle s
          = ({ s with
                status := ConversionStatus.success,
                error := none,
                textResult := r },
             [ConvCall.text s.inputText],
             [{ s with status := ConversionStatus.processing, error := none },
              { s with
                status := ConversionStatus.success,
                error := none,
                textResult := r }]) := by
        unfold handleConvert
        rw [if_neg h1, if_neg h2, hm, ht]
      rw [hred]
      refine ⟨?_, ?_⟩
      · intro st hst
        rcases List.mem_cons.mp hst with h | h
        · subst h
          intro f hf
          exact hok f hf
        · rcases List.mem_cons.mp h with h' | h'
          · subst h'
            intro f hf
            exact hok f hf
          · simp at h'
      · intro f hf
        exact hok f hf
    | error e =>
      have hred : handleConvert oracle toracle s
          = ({ s with
                status := ConversionStatus.error,
                error := some (if e = "" then "发生意外错误。" else e) },
             [ConvCall.text s.inputText],
             [{ s with status := ConversionStatus.processing, error := none },
              { s with
                status := ConversionStatus.error,
                error := some (if e = "" then "发生意外错误。" else e) }]) := by
        unfold handleConvert
        rw [if_neg h1, if_neg h2, hm, ht]
      rw [hred]
      refine ⟨?_, ?_⟩
      · intro st hst
        rcases List.mem_cons.mp hst with h | h
        · subst h
          intro f hf
          exact hok f hf
        · rcases List.mem_cons.mp h with h' | h'
          · subst h'
            intro f hf
            exact hok f hf
          · simp at h'
      · intro f hf
        exact hok f hf
  | file =>
    have hne : s.batchFiles ≠ [] := fun hbf => h2 ⟨hm, hbf⟩
    rw [handleConvert_file_red oracle toracle s hm hne]
    have htr0 : ∀ st ∈ [{ s with status := ConversionStatus.processing, error := none }],
        ∀ f ∈ st.batchFiles, itemOkB f = true := by
      intro st hst
      rcases List.mem_cons.mp hst with h | h
      · subst h
        intro f hf
        exact hok f hf
      · simp at h
    refine ⟨?_, ?_⟩
    · exact runBatchAux_allOk (fun f => oracle f s.targetFormat s.additionalInstructions)
        s.batchFiles [] { s with status := ConversionStatus.processing, error := none }
        [] [{ s with status := ConversionStatus.processing, error := none }]
        (by simp) (by simpa using hnd) hok htr0
    · obtain ⟨hA, -, -⟩ :=
        runBatchAux_spec (fun f => oracle f s.targetFormat s.additionalInstructions)
          s.batchFiles []
          { s with status := ConversionStatus.processing, error := none }
          [] [{ s with status := ConversionStatus.processing, error := none }]
          (by simp) (by simpa using hnd)
      rw [hA, List.nil_append]
      intro f hf
      obtain ⟨x, hx, rfl⟩ := List.mem_map.mp hf
      exact processItem_ok _ x (hok x hx)

/-- Witness for C7: a freshly enqueued item, and the item of a concrete
completed run, both satisfy the discipline. -/
theorem C7_result_error_invariant_witness :
    itemOkB (mkItem 5 pngFile) = true
    ∧ itemOkB ⟨0, fTxt, ConversionStatus.success, some "ok-a", none⟩ = true :=
  ⟨(C7_result_error_invariant [pngFile] 5 okOracle okTextOracle sTwo).1
      (mkItem 5 pngFile) (by decide),
   ((C7_result_error_invariant [pngFile] 5 evenOddOracle okTextOracle sTwo).2
      (by decide) (by decide)).2
      ⟨0, fTxt, ConversionStatus.success, some "ok-a", none⟩ (by decide)⟩

/-- Claim C9: content-transport selection of `convertContent` for file
payloads: a file classified as textual is transmitted inside a literal text
prompt part embedding the file's content — no base64 `inlineData` part is
sent — while a non-textual file is transmitted as a base64 `inlineData` blob
tagged with the content type derived (by `getMimeType`) from the declared
type or the filename extension. -/
theorem C9_transport_selection (f : FileMeta) (t : TargetFormat) (i : String) :
    (isTextFile f = true →
      (∀ p ∈ partsFor (ConvInput.file f) t i, p.isInline = false)
      ∧ ∃ pre, Part.text (pre ++ f.textContent) ∈ partsFor (ConvInput.file f) t i)
    ∧ (isTextFile f = false →
      Part.inlineData f.b64Data (getMimeType f) ∈ partsFor (ConvInput.file f) t i) := by
  constructor
  · intro h
    show (∀ p ∈ buildPartsFile f t i, p.isInline = false)
      ∧ ∃ pre, Part.text (pre ++ f.textContent) ∈ buildPartsFile f t i
    unfold buildPartsFile
    rw [if_pos h]
    by_cases hi : jsTrim i ≠ ""
    · rw [if_pos hi]
      refine ⟨?_, ?_⟩
      · intro p hp
        rcases List.mem_cons.mp hp with h' | h'
        · rw [h']
          rfl
        · rcases List.mem_cons.mp h' with h'' | h''
          · rw [h'']
            rfl
          · simp at h''
      · exact ⟨"Convert the following file content to " ++ t.str ++ ". Filename: " ++
          f.name ++ "\n\nContent:\n", List.mem_cons_self _ _⟩
    · rw [if_neg hi]
      refine ⟨?_, ?_⟩
      · intro p hp
        rcases List.mem_cons.mp hp with h' | h'
        · rw [h']
          rfl
        · simp at h'
      · exact ⟨"Convert the following file content to " ++ t.str ++ ". Filename: " ++
          f.name ++ "\n\nContent:\n", List.mem_cons_self _ _⟩
  · intro h
    show Part.inlineData f.b64Data (getMimeType f) ∈ buildPartsFile f t i
    unfold buildPartsFile
    rw [if_neg (by simp [h])]
    by_cases hi : jsTrim i ≠ ""
    · rw [if_pos hi]
      exact List.mem_cons_self _ _
    · rw [if_neg hi]
      exact List.mem_cons_self _ _

/-- Witness for C9: a concrete PDF goes as an `inlineData` blob and a
concrete text file's content is embedded in a literal text part. -/
theorem C9_transport_selection_witness :
    Part.inlineData fPdf.b64Data (getMimeType fPdf)
      ∈ partsFor (ConvInput.file fPdf) TargetFormat.JSON ""
    ∧ ∃ pre, Part.text (pre ++ fTxt.textContent)
      ∈ partsFor (ConvInput.file fTxt) TargetFormat.JSON "" :=
  ⟨(C9_transport_selection fPdf TargetFormat.JSON "").2 (by decide),
   ((C9_transport_selection fTxt TargetFormat.JSON "").1 (by decide)).2⟩

/-- Claim C10: `convertContent` never resolves with an empty string — when
the model call succeeds but yields empty or absent text, it resolves with
the fixed placeholder `"未生成任何内容。"` instead of the verbatim output. -/
theorem C10_nonempty_result
    (genai : List Part → GenConfig → Except String (Option String))
    (input : ConvInput) (target : TargetFormat) (instr : String) (r : String) :
    (convertContent genai input target instr = Except.ok r → r ≠ "")
    ∧ convertContent (fun _ _ => Except.ok none) input target instr
        = Except.ok "未生成任何内容。"
    ∧ convertContent (fun _ _ => Except.ok (some "")) input target instr
        = Except.ok "未生成任何内容。" := by
  refine ⟨?_, rfl, rfl⟩
  intro h
  unfold convertContent at h
  cases hg : genai (partsFor input target instr) (configFor input target) with
  | ok tx =>
    rw [hg] at h
    simp only [Except.ok.injEq] at h
    subst h
    by_cases he : tx.getD "" = ""
    · rw [if_pos he]
      decide
    · rw [if_neg he]
      exact he
  | error e =>
    rw [hg] at h
    simp at h

/-- Witness for C10: a concrete successful call resolves non-empty, and a
concrete empty-text call resolves with the placeholder. -/
theorem C10_nonempty_result_witness :
    ("hello" ≠ "")
    ∧ convertContent (fun _ _ => Except.ok none) (ConvInput.text "x")
        TargetFormat.JSON "" = Except.ok "未生成任何内容。" :=
  ⟨(C10_nonempty_result (fun _ _ => Except.ok (some "hello")) (ConvInput.text "x")
      TargetFormat.JSON "" "hello").1 rfl,
   (C10_nonempty_result (fun _ _ => Except.ok none) (ConvInput.text "x")
      TargetFormat.JSON "" "unused").2.1⟩

end UniConvert
